import Mathlib

/-!
Verification of the AlicePi voice-assistant pipeline against its
natural-language specification.  Each definition is a shallow embedding of a
function or loop of the Python source; bytes are modelled as natural numbers,
wall-clock times as rationals, and machine integers as `Int` with explicit
wrapping where the code can overflow.
-/

namespace AlicePi

/-! ## Length-prefixed framing (`proto_defs/src/alicepi_proto/vad.py`)

`encode_packet` prepends a 4-byte big-endian length to the serialized
payload (`struct.pack(">I", len(payload)) + payload`), and
`VadPacketFramer.decode` appends incoming bytes to an internal buffer and
greedily extracts complete frames. -/

/-- `struct.pack(">I", n)`: 4-byte big-endian encoding of `n`. -/
def encodeBE4 (n : Nat) : List Nat :=
  [n / 2 ^ 24 % 256, n / 2 ^ 16 % 256, n / 2 ^ 8 % 256, n % 256]

/-- `struct.unpack(">I", buffer[:4])[0]`: read the first four bytes of the
buffer as a big-endian length.  Only called when the buffer has at least
four bytes; shorter buffers give a junk value that is never used. -/
def decodeBE4 (b : List Nat) : Nat :=
  match b with
  | b0 :: b1 :: b2 :: b3 :: _ => ((b0 * 256 + b1) * 256 + b2) * 256 + b3
  | _ => 0

/-- The `while` loop of `VadPacketFramer.decode`: repeatedly read a 4-byte
big-endian length and, when `4 + message_len` bytes are buffered, extract
that payload, consuming exactly `4 + message_len` bytes.  Returns the
extracted payloads in order together with the leftover buffer. -/
def drainBuffer (buf : List Nat) : List (List Nat) × List Nat :=
  if h4 : 4 ≤ buf.length then
    if hn : 4 + decodeBE4 buf ≤ buf.length then
      ((buf.drop 4).take (decodeBE4 buf)
          :: (drainBuffer (buf.drop (4 + decodeBE4 buf))).1,
        (drainBuffer (buf.drop (4 + decodeBE4 buf))).2)
    else
      ([], buf)
  else
    ([], buf)
termination_by buf.length
decreasing_by
  simp only [List.length_drop]
  omega

/-- The framer's only state is its byte buffer. -/
structure VadPacketFramer where
  _buffer : List Nat
deriving Repr, DecidableEq

/-- A fresh framer (`VadPacketFramer.__init__`). -/
def VadPacketFramer.init : VadPacketFramer := ⟨[]⟩

/-- One call to `VadPacketFramer.decode` at the framing level: extend the
buffer with the incoming data, then drain all complete frames. -/
def framerFeed (f : VadPacketFramer) (data : List Nat) :
    List (List Nat) × VadPacketFramer :=
  let out := drainBuffer (f._buffer ++ data)
  (out.1, ⟨out.2⟩)

/-- Successive `decode` calls: feed each chunk in turn, concatenating the
payloads produced by each call. -/
def framerFeedAll (f : VadPacketFramer) (chunks : List (List Nat)) :
    List (List Nat) × VadPacketFramer :=
  match chunks with
  | [] => ([], f)
  | c :: rest =>
    let out := framerFeed f c
    let out2 := framerFeedAll out.2 rest
    (out.1 ++ out2.1, out2.2)

/-! ## VadPacket and its serialized form

The message schema lives in `vad.proto` and the generated module `vad_pb2`,
neither of which is under `src/` (only the build hook `gen_proto.py` and the
helpers in `vad.py` refer to them). -/

/-- The `audio` branch of the VadPacket oneof:
`{ sample_rate, channels, sequence, data }`. -/
structure AudioFrame where
  sample_rate : Nat
  channels : Nat
  sequence : Nat
  data : List Nat
deriving DecidableEq, Repr

/-- The `status` enum `{UNKNOWN=0, SILENCE=1, SPEECH_DETECTED=2,
SPEECH_HANGOVER=3}`. -/
inductive VadStatus where
  | unknown
  | silence
  | speech_detected
  | speech_hangover
deriving DecidableEq, Repr

/-- The oneof payload of a VadPacket: exactly one of `audio` or `status`. -/
inductive VadPayload where
  | audio (a : AudioFrame)
  | status (s : VadStatus)
deriving DecidableEq, Repr

/-- A VadPacket: `timestamp_ms` plus the oneof payload. -/
structure VadPacket where
  timestamp_ms : Nat
  payload : VadPayload
deriving DecidableEq, Repr

/-- Wire value of the status enum. -/
def statusCode : VadStatus → Nat
  | .unknown => 0
  | .silence => 1
  | .speech_detected => 2
  | .speech_hangover => 3

/-- Decode a status enum wire value. -/
def statusOfCode (c : Nat) : Option VadStatus :=
  if c = 0 then some .unknown
  else if c = 1 then some .silence
  else if c = 2 then some .speech_detected
  else if c = 3 then some .speech_hangover
  else none

/-- Base-128 varint encoding, low groups first, continuation bit `0x80`.
The first argument is fuel; `varintEncode` supplies enough for any input. -/
def varintEncodeAux : Nat → Nat → List Nat
  | 0, n => [n]
  | fuel + 1, n => if n < 128 then [n] else (n % 128 + 128) :: varintEncodeAux fuel (n / 128)

/-- Modelled from the spec: the `vad.proto` schema and the generated
`vad_pb2` serialization are not under `src/`; the spec describes the payload
as "a schema-based encoding (e.g. a protocol-buffer-style varint layout)".
Varint encoding of one unsigned field. -/
def varintEncode (n : Nat) : List Nat :=
  varintEncodeAux n n

/-- Varint decoding: returns the value and the remaining bytes. -/
def varintDecode : List Nat → Option (Nat × List Nat)
  | [] => none
  | b :: rest =>
    if b < 128 then some (b, rest)
    else
      match varintDecode rest with
      | none => none
      | some (m, r) => some (b - 128 + 128 * m, r)

/-- Modelled from the spec: serialized form of the oneof payload, in the
protocol-buffer style the spec names — a tag for the chosen branch followed
by its varint-encoded fields, with `data` length-delimited. -/
def serializePayload : VadPayload → List Nat
  | .audio a =>
      1 :: (varintEncode a.sample_rate ++ varintEncode a.channels ++
        varintEncode a.sequence ++ varintEncode a.data.length ++ a.data)
  | .status s => [2, statusCode s]

/-- Modelled from the spec: `VadPacket.SerializeToString()` — the
varint-encoded `timestamp_ms` followed by the serialized oneof payload. -/
def serializePacket (p : VadPacket) : List Nat :=
  varintEncode p.timestamp_ms ++ serializePayload p.payload

/-- Modelled from the spec: parse of the oneof payload; fails on any
malformed or trailing bytes, as `ParseFromString` does. -/
def parsePayload (bs : List Nat) : Option VadPayload :=
  match bs with
  | 1 :: r0 =>
    match varintDecode r0 with
    | none => none
    | some (sr, r1) =>
      match varintDecode r1 with
      | none => none
      | some (ch, r2) =>
        match varintDecode r2 with
        | none => none
        | some (sq, r3) =>
          match varintDecode r3 with
          | none => none
          | some (len, r4) =>
            if r4.length = len then some (.audio ⟨sr, ch, sq, r4⟩) else none
  | [2, c] => (statusOfCode c).map VadPayload.status
  | _ => none

/-- Modelled from the spec: `VadPacket().ParseFromString(payload)`. -/
def parsePacket (bs : List Nat) : Option VadPacket :=
  match varintDecode bs with
  | none => none
  | some (ts, rest) =>
    match parsePayload rest with
    | none => none
    | some pl => some ⟨ts, pl⟩

/-- `encode_packet`: `struct.pack(">I", len(payload)) + payload` where
`payload = packet.SerializeToString()`. -/
def encode_packet (p : VadPacket) : List Nat :=
  encodeBE4 (serializePacket p).length ++ serializePacket p

/-- One call to `VadPacketFramer.decode` at the packet level: each extracted
payload is parsed (`ParseFromString`); parsing is fallible, hence `Option`. -/
def VadPacketFramer.decode (f : VadPacketFramer) (data : List Nat) :
    List (Option VadPacket) × VadPacketFramer :=
  ((framerFeed f data).1.map parsePacket, (framerFeed f data).2)

/-- Successive packet-level `decode` calls on one framer. -/
def VadPacketFramer.decodeAll (f : VadPacketFramer) (chunks : List (List Nat)) :
    List (Option VadPacket) × VadPacketFramer :=
  match chunks with
  | [] => ([], f)
  | c :: rest =>
    let out := f.decode c
    let out2 := out.2.decodeAll rest
    (out.1 ++ out2.1, out2.2)

/-! ## Voice-Input gating loop (`voice_input/src/voice_input/main.py`)

The `while True` loop reads a chunk, classifies it, and emits audio/status
VadPackets through the streamer.  Wall-clock times (`time.time()`) are
rationals in seconds; `now_ms = int(current_time * 1000)`. -/

/-- `config.SAMPLE_RATE` default. -/
def SAMPLE_RATE : Nat := 16000

/-- `config.CHANNELS` default. -/
def CHANNELS : Nat := 1

/-- `make_audio_packet(...)` with an explicit timestamp. -/
def make_audio_packet (sample_rate channels sequence : Nat) (data : List Nat)
    (timestamp_ms : Nat) : VadPacket :=
  ⟨timestamp_ms, .audio ⟨sample_rate, channels, sequence, data⟩⟩

/-- `make_status_packet(status, timestamp_ms=...)`. -/
def make_status_packet (s : VadStatus) (timestamp_ms : Nat) : VadPacket :=
  ⟨timestamp_ms, .status s⟩

/-- `int(current_time * 1000)` for a nonnegative wall-clock time. -/
def viNowMs (now : ℚ) : Nat := (now * 1000).floor.toNat

/-- Loop state of the Voice-Input `main`: `last_speech_time`, `last_status`,
`sequence`. -/
structure VIState where
  lastSpeech : Option ℚ
  lastStatus : VadStatus
  sequence : Nat
deriving DecidableEq, Repr

/-- Initial loop state: `last_speech_time = None`,
`last_status = SILENCE`, `sequence = 0`. -/
def viInit : VIState := ⟨none, .silence, 0⟩

/-- One chunk read from the capture device: its VAD classification
(`vad.process(chunk)`), the wall-clock time of the iteration, and the raw
bytes. -/
structure ViInput where
  isSpeech : Bool
  now : ℚ
  chunk : List Nat
deriving DecidableEq, Repr

/-- One iteration of the Voice-Input gating loop.  `hangoverMs` is
`config.SILENCE_DURATION_MS`; the loop compares
`current_time - last_speech_time < hangoverMs / 1000`.  Returns the next
state and the packets sent, in emission order (audio before the status
transition, exactly as in the source). -/
def viStep (hangoverMs : ℚ) (s : VIState) (inp : ViInput) :
    VIState × List VadPacket :=
  let nowMs := viNowMs inp.now
  if inp.isSpeech then
    let seq := s.sequence + 1
    let audioPkt := make_audio_packet SAMPLE_RATE CHANNELS seq inp.chunk nowMs
    if s.lastStatus ≠ VadStatus.speech_detected then
      (⟨some inp.now, .speech_detected, seq⟩,
        [audioPkt, make_status_packet .speech_detected nowMs])
    else
      (⟨some inp.now, s.lastStatus, seq⟩, [audioPkt])
  else
    match s.lastSpeech with
    | some t =>
      if inp.now - t < hangoverMs / 1000 then
        let seq := s.sequence + 1
        let audioPkt := make_audio_packet SAMPLE_RATE CHANNELS seq inp.chunk nowMs
        if s.lastStatus ≠ VadStatus.speech_hangover then
          (⟨some t, .speech_hangover, seq⟩,
            [audioPkt, make_status_packet .speech_hangover nowMs])
        else
          (⟨some t, s.lastStatus, seq⟩, [audioPkt])
      else
        if s.lastStatus ≠ VadStatus.silence then
          (⟨none, .silence, s.sequence⟩, [make_status_packet .silence nowMs])
        else
          (⟨none, s.lastStatus, s.sequence⟩, [])
    | none =>
      if s.lastStatus ≠ VadStatus.silence then
        (⟨none, .silence, s.sequence⟩, [make_status_packet .silence nowMs])
      else
        (⟨none, s.lastStatus, s.sequence⟩, [])

/-- Run the gating loop over a list of chunks, collecting the packets
emitted for each chunk separately. -/
def viRun (hangoverMs : ℚ) (s : VIState) (inps : List ViInput) :
    VIState × List (List VadPacket) :=
  match inps with
  | [] => (s, [])
  | i :: rest =>
    let out := viStep hangoverMs s i
    let out2 := viRun hangoverMs out.1 rest
    (out2.1, out.2 :: out2.2)

/-- The full emitted packet sequence of a run, in emission order. -/
def viTrace (hangoverMs : ℚ) (inps : List ViInput) : List VadPacket :=
  ((viRun hangoverMs viInit inps).2).flatten

/-- The statuses of the status packets of a packet sequence, in order. -/
def statusSeq (l : List VadPacket) : List VadStatus :=
  l.filterMap fun p =>
    match p.payload with
    | .status s => some s
    | .audio _ => none

/-- The sequence numbers of the audio packets of a packet sequence. -/
def audioSeqNums (l : List VadPacket) : List Nat :=
  l.filterMap fun p =>
    match p.payload with
    | .audio a => some a.sequence
    | .status _ => none

/-- Whether a packet carries audio. -/
def isAudioPacket (p : VadPacket) : Bool :=
  match p.payload with
  | .audio _ => true
  | .status _ => false

/-- Number of audio packets in a packet sequence. -/
def countAudio (l : List VadPacket) : Nat :=
  (l.filter isAudioPacket).length

/-! ## Speech-Rec transcription workers (`speech_rec/src/speech_rec/main.py`)

`_maybe_start_transcription` spawns a worker thread only when the tracked
`transcription_thread` is absent or no longer alive; `_cancel_transcription`
(reached from the `RESET` command) sets the cancel flag, joins with a 0.5 s
timeout, and sets `transcription_thread = None` even when the join timed out
and the worker is still alive ("it will be abandoned").  Workers are
identified by spawn order; `alive` is the set of worker threads whose
`is_alive()` is true, `cancelled` the set of workers whose cancel flag was
set by a reset. -/

structure WorkerSys where
  tracked : Option Nat
  alive : List Nat
  cancelled : List Nat
  nextId : Nat
deriving DecidableEq, Repr

/-- Scheduler-visible events of the worker subsystem. -/
inductive SREvent where
  /-- `_maybe_start_transcription` runs with `pending_transcription` set and
  a non-empty drained buffer. -/
  | maybeStart
  /-- `_cancel_transcription` runs (from `RESET`); the flag records whether
  the 0.5 s `join` timed out, leaving the worker alive. -/
  | reset (joinTimedOut : Bool)
  /-- A worker thread's target function returns, so `is_alive()` becomes
  false. -/
  | workerDone (id : Nat)
deriving DecidableEq, Repr

/-- Spawning a fresh worker thread (`threading.Thread(...); .start()` with
`self.transcription_thread` set to it). -/
def spawnWorker (s : WorkerSys) : WorkerSys :=
  { tracked := some s.nextId, alive := s.alive ++ [s.nextId],
    cancelled := s.cancelled, nextId := s.nextId + 1 }

/-- One event of the worker subsystem, embedding
`_maybe_start_transcription`, `_cancel_transcription` and worker exit.
The guard of both methods is
`self.transcription_thread and self.transcription_thread.is_alive()`. -/
def srStep (s : WorkerSys) (e : SREvent) : WorkerSys :=
  match e with
  | .maybeStart =>
    match s.tracked with
    | some w => if w ∈ s.alive then s else spawnWorker s
    | none => spawnWorker s
  | .reset joinTimedOut =>
    match s.tracked with
    | some w =>
      if w ∈ s.alive then
        if joinTimedOut then
          { s with cancelled := s.cancelled ++ [w], tracked := none }
        else
          { s with
              cancelled := s.cancelled ++ [w]
              alive := s.alive.erase w
              tracked := none }
      else { s with tracked := none }
    | none => { s with tracked := none }
  | .workerDone id => { s with alive := s.alive.erase id }

/-- Service start: no worker has ever been spawned. -/
def srInit : WorkerSys := ⟨none, [], [], 0⟩

/-- Fold a list of events from a state. -/
def srRun (s : WorkerSys) (evs : List SREvent) : WorkerSys :=
  evs.foldl srStep s

/-! ## Orchestrator session (`orchestrator/src/session.py` and `main.py`) -/

/-- A turn role. -/
inductive Role where
  | user
  | assistant
deriving DecidableEq, Repr

/-- One turn of the session history: `{"role": ..., "content": ...}`. -/
structure Turn where
  role : Role
  content : String
deriving DecidableEq, Repr

/-- `SessionManager` state plus the append-only session log file, modelled
as the list of history records appended so far. -/
structure SessionManager where
  history : List Turn
  last_tts_end_time : ℚ
  sessionLog : List (List Turn)
deriving DecidableEq, Repr

/-- `add_user_message`. -/
def add_user_message (s : SessionManager) (text : String) : SessionManager :=
  { s with history := s.history ++ [⟨.user, text⟩] }

/-- `log_session`: appends one record containing the current history, but
only when `config.ENABLE_SESSION_LOGGING` is set and the history is
non-empty. -/
def log_session (enabled : Bool) (s : SessionManager) : SessionManager :=
  if enabled ∧ s.history ≠ [] then
    { s with sessionLog := s.sessionLog ++ [s.history] }
  else s

/-- `check_timeout`: when the history is non-empty and
`now - last_tts_end_time > SESSION_TIMEOUT_SECONDS`, log the session and
clear the in-memory history. -/
def check_timeout (enabled : Bool) (timeout now : ℚ) (s : SessionManager) :
    SessionManager :=
  if s.history ≠ [] ∧ timeout < now - s.last_tts_end_time then
    let s1 := log_session enabled s
    { s1 with history := [] }
  else s

/-- The session-facing prefix of `_handle_sr_text` on a final text followed
by `_process_text` up to and including `add_user_message`: the timeout check
runs first, then the new user turn is enqueued.  (The remainder of
`_process_text` — engine call, assistant turn, control message — happens
after this observation point.) -/
def handle_final_text_enqueue (enabled : Bool) (timeout now : ℚ)
    (s : SessionManager) (text : String) : SessionManager :=
  add_user_message (check_timeout enabled timeout now s) text

/-! ## Orchestrator FSM entry from the SR-text reader
(`orchestrator/src/main.py`, `_handle_sr_text`; `orchestrator/src/state.py`) -/

/-- The four FSM states. -/
inductive State where
  | IDLE
  | LISTENING
  | PROCESSING
  | SPEAKING
deriving DecidableEq, Repr

/-- A parsed SR-text line `{text, is_final}`. -/
structure SrTextPayload where
  text : String
  is_final : Bool
deriving DecidableEq, Repr

/-- Observable effects of one `_handle_sr_text` call: whether
`session.check_timeout()` was run, the FSM state right after the
`self.state = State.PROCESSING` assignment (or the unchanged state), and the
text handed to `_process_text`, if any. -/
structure HandleSrTextResult where
  ranTimeoutCheck : Bool
  stateAfter : State
  processed : Option String
deriving DecidableEq, Repr

/-- `_handle_sr_text` on a successfully parsed line.  The method never reads
`self.state`: the current state is taken as an argument only to show that
the result does not depend on it. -/
def handle_sr_text (st : State) (p : SrTextPayload) : HandleSrTextResult :=
  if p.text ≠ "" then
    if p.is_final then ⟨true, .PROCESSING, some p.text⟩
    else ⟨false, st, none⟩
  else ⟨false, st, none⟩

/-! ## Receive queues (`speech_rec/src/speech_rec/audio_stream.py` and
`network_voice_input/receiver.py`) -/

/-- `AudioStreamServer.packet_queue = queue.Queue()`: an unbounded queue;
`_receive_loop` puts every decoded packet with a plain `put`. -/
def packetQueuePut {α : Type} (q : List α) (x : α) : List α :=
  q ++ [x]

/-- `NetworkReceiver.audio_queue = queue.Queue(maxsize=100)`. -/
def NET_QUEUE_MAXSIZE : Nat := 100

/-- `NetworkReceiver._handle_client`'s put: `put(chunk, block=False)`; on
`queue.Full`, `get_nowait()` evicts the oldest item and the new chunk is
inserted. -/
def audioQueuePut {α : Type} (q : List α) (x : α) : List α :=
  if q.length < NET_QUEUE_MAXSIZE then q ++ [x] else q.drop 1 ++ [x]

/-! ## Audio reformatter final conversion stage
(`orchestrator/src/audio_processor.py`, `process_chunk` step 4) -/

/-- Wrap to numpy `int32`. -/
def wrap32 (x : ℤ) : ℤ := (x + 2 ^ 31) % 2 ^ 32 - 2 ^ 31

/-- Wrap to numpy `int16` (`astype(np.int16)`). -/
def wrap16 (x : ℤ) : ℤ := (x + 2 ^ 15) % 2 ^ 16 - 2 ^ 15

/-- Widening `S16 → S32`: `final_audio.astype(np.int32) << 16` on an int16
sample; the shift is performed in int32 arithmetic, which wraps. -/
def s16_to_s32 (x : ℤ) : ℤ := wrap32 (x * 2 ^ 16)

/-- Narrowing `S32 → S16`:
`(final_audio.astype(np.int32) >> 16).clip(-32768, 32767).astype(np.int16)`.
numpy `>>` on a signed int is an arithmetic shift, i.e. floor division by
`2^16`, which on `ℤ` is `/` (Euclidean division by a positive divisor). -/
def s32_to_s16 (x : ℤ) : ℤ :=
  wrap16 (min 32767 (max (-32768) (x / 2 ^ 16)))

/-! ## Statement of the hangover-timing property (claim C2) -/

/-- The hangover-timing property for one speech chunk at time `t`
(classified speech, arbitrary prior state `s0` and data `c0`) followed by
the silence chunks `sil`: writing `H` for `hangoverMs / 1000` and `s1` for
the state after the speech chunk,
(1) each silence chunk at time `u` produces exactly one audio packet when
`u - t < H` and none otherwise, and
(2) for the first silence chunk at or beyond the hangover bound, the loop
emits exactly one packet — the `SILENCE` status transition — and clears
`last_speech_time`. -/
def ViHangoverSpec (hangoverMs : ℚ) (s0 : VIState) (c0 : List Nat) (t : ℚ)
    (sil : List ViInput) : Prop :=
  ((viRun hangoverMs (viStep hangoverMs s0 ⟨true, t, c0⟩).1 sil).2.map countAudio
      = sil.map fun i => if i.now - t < hangoverMs / 1000 then 1 else 0)
  ∧ ∀ pre u post, sil = pre ++ u :: post →
      (∀ v ∈ pre, v.now - t < hangoverMs / 1000) →
      hangoverMs / 1000 ≤ u.now - t →
      (viStep hangoverMs
          (viRun hangoverMs (viStep hangoverMs s0 ⟨true, t, c0⟩).1 pre).1 u).2
        = [make_status_packet .silence (viNowMs u.now)]
      ∧ (viStep hangoverMs
          (viRun hangoverMs (viStep hangoverMs s0 ⟨true, t, c0⟩).1 pre).1 u).1.lastSpeech
        = none

/-- A relational path: `ChainFrom R a l b` says the elements of `l` form an
`R`-chain starting from `a` and ending at `b` (`b = a` when `l` is empty).
Used to thread `last_status` / `sequence` through the emitted packets. -/
inductive ChainFrom (R : α → α → Prop) : α → List α → α → Prop
  | nil (a : α) : ChainFrom R a [] a
  | cons {a b c : α} {l : List α} :
      R a b → ChainFrom R b l c → ChainFrom R a (b :: l) c

/-! # Framing lemmas -/

theorem encodeBE4_length (n : Nat) : (encodeBE4 n).length = 4 := rfl

theorem decodeBE4_encodeBE4 (n : Nat) (rest : List Nat) (h : n < 2 ^ 32) :
    decodeBE4 (encodeBE4 n ++ rest) = n := by
  simp only [encodeBE4, List.cons_append, List.nil_append, decodeBE4]
  omega

theorem drainBuffer_nil : drainBuffer [] = ([], []) := by
  rw [drainBuffer]
  norm_num

theorem drainBuffer_extract (buf : List Nat) (h4 : 4 ≤ buf.length)
    (hn : 4 + decodeBE4 buf ≤ buf.length) :
    drainBuffer buf
      = ((buf.drop 4).take (decodeBE4 buf)
            :: (drainBuffer (buf.drop (4 + decodeBE4 buf))).1,
         (drainBuffer (buf.drop (4 + decodeBE4 buf))).2) := by
  rw [drainBuffer, dif_pos h4, dif_pos hn]

theorem drainBuffer_stuck (buf : List Nat)
    (h : ¬(4 ≤ buf.length ∧ 4 + decodeBE4 buf ≤ buf.length)) :
    drainBuffer buf = ([], buf) := by
  rw [drainBuffer]
  by_cases h4 : 4 ≤ buf.length
  · rw [dif_pos h4, dif_neg (by tauto)]
  · rw [dif_neg h4]

theorem drainBuffer_frame (p rest : List Nat) (h : p.length < 2 ^ 32) :
    drainBuffer (encodeBE4 p.length ++ p ++ rest)
      = (p :: (drainBuffer rest).1, (drainBuffer rest).2) := by
  rw [List.append_assoc]
  have hdec : decodeBE4 (encodeBE4 p.length ++ (p ++ rest)) = p.length :=
    decodeBE4_encodeBE4 p.length (p ++ rest) h
  have hlen : (encodeBE4 p.length ++ (p ++ rest)).length
      = 4 + p.length + rest.length := by
    simp [encodeBE4]
    omega
  have h4 : 4 ≤ (encodeBE4 p.length ++ (p ++ rest)).length := by omega
  have hn : 4 + decodeBE4 (encodeBE4 p.length ++ (p ++ rest))
      ≤ (encodeBE4 p.length ++ (p ++ rest)).length := by
    rw [hdec]; omega
  rw [drainBuffer_extract _ h4 hn, hdec]
  have hdrop4 : (encodeBE4 p.length ++ (p ++ rest)).drop 4 = p ++ rest := by
    have h44 : (4 : Nat) = (encodeBE4 p.length).length := rfl
    rw [h44, List.drop_left]
  have hpay : ((encodeBE4 p.length ++ (p ++ rest)).drop 4).take p.length = p := by
    rw [hdrop4, List.take_left]
  have hrest : (encodeBE4 p.length ++ (p ++ rest)).drop (4 + p.length) = rest := by
    rw [← List.append_assoc]
    have h4p : 4 + p.length = (encodeBE4 p.length ++ p).length := by
      simp [encodeBE4]
      omega
    rw [h4p, List.drop_left]
  rw [hpay, hrest]

theorem decodeBE4_append (xs ys : List Nat) (h : 4 ≤ xs.length) :
    decodeBE4 (xs ++ ys) = decodeBE4 xs := by
  match xs with
  | a :: b :: c :: d :: t => rfl
  | [] => simp at h
  | [a] => simp at h
  | [a, b] => simp at h
  | [a, b, c] => simp at h

theorem drainBuffer_append (xs ys : List Nat) :
    drainBuffer (xs ++ ys)
      = ((drainBuffer xs).1 ++ (drainBuffer ((drainBuffer xs).2 ++ ys)).1,
         (drainBuffer ((drainBuffer xs).2 ++ ys)).2) := by
  induction xs using drainBuffer.induct with
  | case1 buf h4 hn ih =>
    have h4b : 4 ≤ (buf ++ ys).length := by
      simp only [List.length_append]; omega
    have hdec : decodeBE4 (buf ++ ys) = decodeBE4 buf := decodeBE4_append buf ys h4
    have hnb : 4 + decodeBE4 (buf ++ ys) ≤ (buf ++ ys).length := by
      rw [hdec]; simp only [List.length_append]; omega
    rw [drainBuffer_extract _ h4b hnb, hdec]
    have hdrop4 : (buf ++ ys).drop 4 = buf.drop 4 ++ ys :=
      List.drop_append_of_le_length (by omega)
    have htake : ((buf ++ ys).drop 4).take (decodeBE4 buf)
        = (buf.drop 4).take (decodeBE4 buf) := by
      rw [hdrop4]
      exact List.take_append_of_le_length (by simp only [List.length_drop]; omega)
    have hdropn : (buf ++ ys).drop (4 + decodeBE4 buf)
        = buf.drop (4 + decodeBE4 buf) ++ ys :=
      List.drop_append_of_le_length hn
    rw [htake, hdropn, ih]
    rw [drainBuffer_extract buf h4 hn]
    simp
  | case2 buf h4 hn =>
    rw [drainBuffer_stuck buf (by tauto)]
    simp
  | case3 buf h4 =>
    rw [drainBuffer_stuck buf (by tauto)]
    simp

theorem drainBuffer_snd (x : List Nat) :
    drainBuffer ((drainBuffer x).2) = ([], (drainBuffer x).2) := by
  induction x using drainBuffer.induct with
  | case1 buf h4 hn ih =>
    rw [drainBuffer_extract buf h4 hn]
    exact ih
  | case2 buf h4 hn =>
    rw [drainBuffer_stuck buf (by tauto)]
    exact drainBuffer_stuck buf (by tauto)
  | case3 buf h4 =>
    rw [drainBuffer_stuck buf (by tauto)]
    exact drainBuffer_stuck buf (by tauto)

theorem framerFeedAll_drained (buf : List Nat) (cs : List (List Nat))
    (hq : drainBuffer buf = ([], buf)) :
    framerFeedAll ⟨buf⟩ cs
      = ((drainBuffer (buf ++ cs.flatten)).1,
         ⟨(drainBuffer (buf ++ cs.flatten)).2⟩) := by
  induction cs generalizing buf with
  | nil =>
    simp [framerFeedAll, hq]
  | cons c rest ih =>
    have hstep := drainBuffer_append (buf ++ c) rest.flatten
    have hq2 := drainBuffer_snd (buf ++ c)
    calc framerFeedAll ⟨buf⟩ (c :: rest)
        = ((drainBuffer (buf ++ c)).1 ++ (framerFeedAll ⟨(drainBuffer (buf ++ c)).2⟩ rest).1,
           (framerFeedAll ⟨(drainBuffer (buf ++ c)).2⟩ rest).2) := by
          simp [framerFeedAll, framerFeed]
      _ = ((drainBuffer (buf ++ c)).1
              ++ (drainBuffer ((drainBuffer (buf ++ c)).2 ++ rest.flatten)).1,
           ⟨(drainBuffer ((drainBuffer (buf ++ c)).2 ++ rest.flatten)).2⟩) := by
          rw [ih _ hq2]
      _ = ((drainBuffer (buf ++ (c :: rest).flatten)).1,
           ⟨(drainBuffer (buf ++ (c :: rest).flatten)).2⟩) := by
          rw [List.flatten_cons, ← List.append_assoc, hstep]

theorem drainBuffer_encodeAll (ps : List (List Nat))
    (h : ∀ p ∈ ps, p.length < 2 ^ 32) :
    drainBuffer (ps.map fun p => encodeBE4 p.length ++ p).flatten = (ps, []) := by
  induction ps with
  | nil => simpa using drainBuffer_nil
  | cons p rest ih =>
    have hp : p.length < 2 ^ 32 := h p (by simp)
    have hrest : ∀ q ∈ rest, q.length < 2 ^ 32 := fun q hq => h q (by simp [hq])
    rw [List.map_cons, List.flatten_cons, drainBuffer_frame p _ hp, ih hrest]

/-! # Serialization round-trip -/

theorem varintEncodeAux_decode (fuel : Nat) :
    ∀ n, n ≤ fuel → ∀ rest, varintDecode (varintEncodeAux fuel n ++ rest) = some (n, rest) := by
  induction fuel with
  | zero =>
    intro n hn rest
    have h0 : n = 0 := by omega
    subst h0
    simp [varintEncodeAux, varintDecode]
  | succ fuel ih =>
    intro n hn rest
    rw [varintEncodeAux]
    by_cases h128 : n < 128
    · simp [h128, varintDecode]
    · have hdiv : n / 128 ≤ fuel := by omega
      simp only [h128, if_false, List.cons_append]
      rw [varintDecode]
      have hge : ¬(n % 128 + 128 < 128) := by omega
      rw [if_neg hge, ih (n / 128) hdiv rest]
      simp
      omega

theorem varint_roundtrip (n : Nat) (rest : List Nat) :
    varintDecode (varintEncode n ++ rest) = some (n, rest) :=
  varintEncodeAux_decode n n le_rfl rest

theorem statusOfCode_statusCode (s : VadStatus) :
    statusOfCode (statusCode s) = some s := by
  cases s <;> rfl

theorem parsePayload_serializePayload (pl : VadPayload) :
    parsePayload (serializePayload pl) = some pl := by
  cases pl with
  | audio a =>
    simp only [serializePayload, parsePayload, List.append_assoc, varint_roundtrip]
    simp
  | status s =>
    simp [serializePayload, parsePayload, statusOfCode_statusCode]

theorem parsePacket_serializePacket (p : VadPacket) :
    parsePacket (serializePacket p) = some p := by
  simp only [serializePacket, parsePacket, varint_roundtrip,
    parsePayload_serializePayload]

theorem decodeAll_eq (f : VadPacketFramer) (cs : List (List Nat)) :
    f.decodeAll cs
      = ((framerFeedAll f cs).1.map parsePacket, (framerFeedAll f cs).2) := by
  induction cs generalizing f with
  | nil => rfl
  | cons c rest ih =>
    simp [VadPacketFramer.decodeAll, VadPacketFramer.decode, framerFeedAll, ih]

/-- C1: feeding any chunking of the concatenated length-prefixed encodings
of packets `P₁…Pₙ` to a fresh `VadPacketFramer` decodes exactly `P₁…Pₙ` in
order with nothing left buffered; moreover each complete frame consumes
exactly `4 +` declared-length bytes from the front of the buffer and the
leftover bytes remain buffered for later calls. -/
theorem vad_framing_roundtrip (ps : List VadPacket) (cs : List (List Nat))
    (hlen : ∀ p ∈ ps, (serializePacket p).length < 2 ^ 32)
    (hcs : cs.flatten = (ps.map encode_packet).flatten) :
    ((VadPacketFramer.init.decodeAll cs).1 = ps.map some
        ∧ (VadPacketFramer.init.decodeAll cs).2 = VadPacketFramer.init)
      ∧ ∀ payload rest, payload.length < 2 ^ 32 →
          drainBuffer (encodeBE4 payload.length ++ payload ++ rest)
            = (payload :: (drainBuffer rest).1, (drainBuffer rest).2) := by
  have hmap : ps.map encode_packet
      = (ps.map serializePacket).map fun q => encodeBE4 q.length ++ q := by
    rw [List.map_map]
    rfl
  have hdrain :
      drainBuffer ((ps.map serializePacket).map fun q => encodeBE4 q.length ++ q).flatten
        = (ps.map serializePacket, []) := by
    refine drainBuffer_encodeAll _ ?_
    intro q hq
    obtain ⟨p, hp, rfl⟩ := List.mem_map.1 hq
    exact hlen p hp
  have hfeed := framerFeedAll_drained [] cs drainBuffer_nil
  have hflat : drainBuffer ([] ++ cs.flatten) = (ps.map serializePacket, []) := by
    rw [List.nil_append, hcs, hmap, hdrain]
  refine ⟨⟨?_, ?_⟩, fun payload rest h => drainBuffer_frame payload rest h⟩
  · rw [decodeAll_eq, VadPacketFramer.init, hfeed, hflat]
    rw [List.map_map]
    have hcomp : parsePacket ∘ serializePacket = some :=
      funext fun p => parsePacket_serializePacket p
    rw [hcomp]
  · rw [decodeAll_eq, VadPacketFramer.init, hfeed, hflat]

/-- Witness for C1: two concrete packets, their 20 encoded bytes split into
four chunks at frame-crossing boundaries. -/
theorem vad_framing_roundtrip_witness :
    (VadPacketFramer.init.decodeAll
        [[0, 0, 0, 3, 5], [2, 1, 0, 0, 0, 9, 6, 1, 200], [],
          [1, 1, 1, 2, 7, 8]]).1
      = [some ⟨5, .status .silence⟩, some ⟨6, .audio ⟨200, 1, 1, [7, 8]⟩⟩] :=
  ((vad_framing_roundtrip
      [⟨5, .status .silence⟩, ⟨6, .audio ⟨200, 1, 1, [7, 8]⟩⟩]
      [[0, 0, 0, 3, 5], [2, 1, 0, 0, 0, 9, 6, 1, 200], [],
        [1, 1, 1, 2, 7, 8]]
      (by decide) (by decide)).1).1

theorem varintEncodeAux_length (fuel n : Nat) :
    (varintEncodeAux fuel n).length ≤ fuel + 1 := by
  induction fuel generalizing n with
  | zero => simp [varintEncodeAux]
  | succ fuel ih =>
    rw [varintEncodeAux]
    by_cases h : n < 128
    · simp [h]
    · simp only [h, if_false, List.length_cons]
      have := ih (n / 128)
      omega

theorem varintEncode_length (n : Nat) : (varintEncode n).length ≤ n + 1 :=
  varintEncodeAux_length n n

/-- C5 counterexample: the framer has no length ceiling.  A frame declaring
a payload of more than `2^13` bytes (an 8 KiB audio packet, twice the
4096-byte receive buffer; `framer_no_ceiling` shows no limit exists at any
size) is buffered in full and decoded into a packet, not rejected. -/
theorem framer_ceiling_counterexample :
    (VadPacketFramer.init.decode
        (encode_packet ⟨0, .audio ⟨16000, 1, 1, List.replicate (2 ^ 13) 0⟩⟩)).1
      = [some ⟨0, .audio ⟨16000, 1, 1, List.replicate (2 ^ 13) 0⟩⟩] := by
  have hlen :
      (serializePacket ⟨0, .audio ⟨16000, 1, 1, List.replicate (2 ^ 13) 0⟩⟩).length
        < 2 ^ 32 := by
    have h0 := varintEncode_length 0
    have h16k := varintEncode_length 16000
    have h1 := varintEncode_length 1
    have h20 := varintEncode_length (List.replicate (2 ^ 13) (0 : Nat)).length
    simp only [List.length_replicate] at h20
    simp only [serializePacket, serializePayload, List.length_append,
      List.length_cons, List.length_replicate]
    omega
  have hframe := drainBuffer_frame
    (serializePacket ⟨0, .audio ⟨16000, 1, 1, List.replicate (2 ^ 13) 0⟩⟩) [] hlen
  rw [List.append_nil] at hframe
  simp only [VadPacketFramer.decode, framerFeed, VadPacketFramer.init,
    encode_packet, List.nil_append, hframe, drainBuffer_nil, List.map_cons,
    List.map_nil, parsePacket_serializePacket]

/-- C5 as it holds on the code: `VadPacketFramer.decode` imposes no ceiling
on the declared payload length — every frame whose declared length fits the
4-byte prefix is buffered until complete and then decoded into its packet,
with the framer left empty. -/
theorem framer_no_ceiling (p : VadPacket)
    (h : (serializePacket p).length < 2 ^ 32) :
    (VadPacketFramer.init.decode (encode_packet p)).1 = [some p]
      ∧ (VadPacketFramer.init.decode (encode_packet p)).2 = VadPacketFramer.init := by
  have hframe := drainBuffer_frame (serializePacket p) [] h
  rw [List.append_nil] at hframe
  constructor
  · simp only [VadPacketFramer.decode, framerFeed, VadPacketFramer.init,
      encode_packet, List.nil_append, hframe, drainBuffer_nil, List.map_cons,
      List.map_nil, parsePacket_serializePacket]
  · simp only [VadPacketFramer.decode, framerFeed, VadPacketFramer.init,
      encode_packet, List.nil_append, hframe, drainBuffer_nil]

/-- Witness for C5's theorem at a small concrete packet. -/
theorem framer_no_ceiling_witness :
    (VadPacketFramer.init.decode (encode_packet ⟨7, .status .speech_detected⟩)).1
      = [some ⟨7, .status .speech_detected⟩] :=
  (framer_no_ceiling ⟨7, .status .speech_detected⟩ (by decide)).1

/-! # Voice-Input gating lemmas -/

theorem ChainFrom.append {R : α → α → Prop} {a b c : α} {xs ys : List α}
    (h1 : ChainFrom R a xs b) (h2 : ChainFrom R b ys c) :
    ChainFrom R a (xs ++ ys) c := by
  induction h1 with
  | nil => simpa using h2
  | cons hr _ ih => exact ChainFrom.cons hr (ih h2)

theorem ChainFrom.chain_cons {R : α → α → Prop} {a b : α} {l : List α}
    (h : ChainFrom R a l b) : List.Chain' R (a :: l) := by
  induction h with
  | nil => simp
  | cons hr _ ih => exact List.chain'_cons.2 ⟨hr, ih⟩

theorem statusSeq_append (l1 l2 : List VadPacket) :
    statusSeq (l1 ++ l2) = statusSeq l1 ++ statusSeq l2 := by
  simp [statusSeq]

theorem audioSeqNums_append (l1 l2 : List VadPacket) :
    audioSeqNums (l1 ++ l2) = audioSeqNums l1 ++ audioSeqNums l2 := by
  simp [audioSeqNums]

theorem countAudio_append (l1 l2 : List VadPacket) :
    countAudio (l1 ++ l2) = countAudio l1 + countAudio l2 := by
  simp [countAudio]

theorem viStep_status_chain (h : ℚ) (s : VIState) (i : ViInput) :
    ChainFrom (fun a b => a ≠ b) s.lastStatus (statusSeq (viStep h s i).2)
      ((viStep h s i).1.lastStatus) := by
  rw [viStep]
  by_cases hsp : i.isSpeech
  · simp only [hsp, if_true]
    by_cases hst : s.lastStatus ≠ VadStatus.speech_detected
    · simp only [if_pos hst, statusSeq, make_audio_packet, make_status_packet,
        List.filterMap]
      exact ChainFrom.cons hst (ChainFrom.nil _)
    · simp only [if_neg hst, statusSeq, make_audio_packet, List.filterMap]
      exact ChainFrom.nil _
  · simp only [hsp, Bool.false_eq_true, if_false]
    cases hls : s.lastSpeech with
    | some t =>
      by_cases hin : i.now - t < h / 1000
      · simp only [if_pos hin]
        by_cases hst : s.lastStatus ≠ VadStatus.speech_hangover
        · simp only [if_pos hst, statusSeq, make_audio_packet,
            make_status_packet, List.filterMap]
          exact ChainFrom.cons hst (ChainFrom.nil _)
        · simp only [if_neg hst, statusSeq, make_audio_packet, List.filterMap]
          exact ChainFrom.nil _
      · simp only [if_neg hin]
        by_cases hst : s.lastStatus ≠ VadStatus.silence
        · simp only [if_pos hst, statusSeq, make_status_packet, List.filterMap]
          exact ChainFrom.cons hst (ChainFrom.nil _)
        · simp only [if_neg hst, statusSeq, List.filterMap]
          exact ChainFrom.nil _
    | none =>
      by_cases hst : s.lastStatus ≠ VadStatus.silence
      · simp only [if_pos hst, statusSeq, make_status_packet, List.filterMap]
        exact ChainFrom.cons hst (ChainFrom.nil _)
      · simp only [if_neg hst, statusSeq, List.filterMap]
        exact ChainFrom.nil _

theorem viRun_status_chain (h : ℚ) (s : VIState) (inps : List ViInput) :
    ChainFrom (fun a b => a ≠ b) s.lastStatus
      (statusSeq ((viRun h s inps).2).flatten) ((viRun h s inps).1.lastStatus) := by
  induction inps generalizing s with
  | nil =>
    simp only [viRun, List.flatten_nil, statusSeq, List.filterMap_nil]
    exact ChainFrom.nil _
  | cons i rest ih =>
    simp only [viRun, List.flatten_cons, statusSeq_append]
    exact (viStep_status_chain h s i).append (ih _)

/-- C7: the Voice-Input gating loop never emits two consecutive status
packets with the same status: in any run from process start, the sequence of
emitted statuses has no two adjacent equal elements. -/
theorem vi_status_transitions_only (hangoverMs : ℚ) (inps : List ViInput) :
    List.Chain' (fun a b => a ≠ b) (statusSeq (viTrace hangoverMs inps)) :=
  List.Chain'.tail (viRun_status_chain hangoverMs viInit inps).chain_cons

theorem viStep_seq_chain (h : ℚ) (s : VIState) (i : ViInput) :
    ChainFrom (fun a b => a < b) s.sequence (audioSeqNums (viStep h s i).2)
      ((viStep h s i).1.sequence) := by
  rw [viStep]
  by_cases hsp : i.isSpeech
  · simp only [hsp, if_true]
    by_cases hst : s.lastStatus ≠ VadStatus.speech_detected
    · simp only [if_pos hst, audioSeqNums, make_audio_packet,
        make_status_packet, List.filterMap]
      exact ChainFrom.cons (Nat.lt_succ_self _) (ChainFrom.nil _)
    · simp only [if_neg hst, audioSeqNums, make_audio_packet, List.filterMap]
      exact ChainFrom.cons (Nat.lt_succ_self _) (ChainFrom.nil _)
  · simp only [hsp, Bool.false_eq_true, if_false]
    cases hls : s.lastSpeech with
    | some t =>
      by_cases hin : i.now - t < h / 1000
      · simp only [if_pos hin]
        by_cases hst : s.lastStatus ≠ VadStatus.speech_hangover
        · simp only [if_pos hst, audioSeqNums, make_audio_packet,
            make_status_packet, List.filterMap]
          exact ChainFrom.cons (Nat.lt_succ_self _) (ChainFrom.nil _)
        · simp only [if_neg hst, audioSeqNums, make_audio_packet, List.filterMap]
          exact ChainFrom.cons (Nat.lt_succ_self _) (ChainFrom.nil _)
      · simp only [if_neg hin]
        by_cases hst : s.lastStatus ≠ VadStatus.silence
        · simp only [if_pos hst, audioSeqNums, make_status_packet, List.filterMap]
          exact ChainFrom.nil _
        · simp only [if_neg hst, audioSeqNums, List.filterMap]
          exact ChainFrom.nil _
    | none =>
      by_cases hst : s.lastStatus ≠ VadStatus.silence
      · simp only [if_pos hst, audioSeqNums, make_status_packet, List.filterMap]
        exact ChainFrom.nil _
      · simp only [if_neg hst, audioSeqNums, List.filterMap]
        exact ChainFrom.nil _

theorem viStep_seq_count (h : ℚ) (s : VIState) (i : ViInput) :
    (viStep h s i).1.sequence = s.sequence + countAudio (viStep h s i).2 := by
  rw [viStep]
  by_cases hsp : i.isSpeech
  · simp only [hsp, if_true]
    by_cases hst : s.lastStatus ≠ VadStatus.speech_detected
    · simp [if_pos hst, countAudio, make_audio_packet, make_status_packet,
        isAudioPacket]
    · simp [if_neg hst, countAudio, make_audio_packet, isAudioPacket]
  · simp only [hsp, Bool.false_eq_true, if_false]
    cases hls : s.lastSpeech with
    | some t =>
      by_cases hin : i.now - t < h / 1000
      · simp only [if_pos hin]
        by_cases hst : s.lastStatus ≠ VadStatus.speech_hangover
        · simp [if_pos hst, countAudio, make_audio_packet, make_status_packet,
            isAudioPacket]
        · simp [if_neg hst, countAudio, make_audio_packet, isAudioPacket]
      · simp only [if_neg hin]
        by_cases hst : s.lastStatus ≠ VadStatus.silence
        · simp [if_pos hst, countAudio, make_status_packet, isAudioPacket]
        · simp [if_neg hst, countAudio]
    | none =>
      by_cases hst : s.lastStatus ≠ VadStatus.silence
      · simp [if_pos hst, countAudio, make_status_packet, isAudioPacket]
      · simp [if_neg hst, countAudio]

theorem viRun_seq_chain (h : ℚ) (s : VIState) (inps : List ViInput) :
    ChainFrom (fun a b => a < b) s.sequence
      (audioSeqNums ((viRun h s inps).2).flatten) ((viRun h s inps).1.sequence) := by
  induction inps generalizing s with
  | nil =>
    simp only [viRun, List.flatten_nil, audioSeqNums, List.filterMap_nil]
    exact ChainFrom.nil _
  | cons i rest ih =>
    simp only [viRun, List.flatten_cons, audioSeqNums_append]
    exact (viStep_seq_chain h s i).append (ih _)

theorem viRun_seq_count (h : ℚ) (s : VIState) (inps : List ViInput) :
    (viRun h s inps).1.sequence
      = s.sequence + countAudio ((viRun h s inps).2).flatten := by
  induction inps generalizing s with
  | nil => simp [viRun, countAudio]
  | cons i rest ih =>
    simp only [viRun, List.flatten_cons, countAudio_append]
    rw [ih, viStep_seq_count]
    omega

/-- C8: the sequence numbers of the audio packets emitted by the
Voice-Input loop are strictly increasing in emission order, and the counter
advances exactly by the number of audio packets emitted — never on status
packets. -/
theorem vi_sequence_monotone (hangoverMs : ℚ) (inps : List ViInput) :
    List.Chain' (fun a b => a < b) (audioSeqNums (viTrace hangoverMs inps))
      ∧ (viRun hangoverMs viInit inps).1.sequence
          = countAudio (viTrace hangoverMs inps) := by
  constructor
  · exact List.Chain'.tail (viRun_seq_chain hangoverMs viInit inps).chain_cons
  · simpa [viInit] using viRun_seq_count hangoverMs viInit inps

/-! # Hangover timing lemmas -/

theorem viStep_speech (h : ℚ) (s : VIState) (t : ℚ) (c : List Nat) :
    (viStep h s ⟨true, t, c⟩).1.lastSpeech = some t
      ∧ (viStep h s ⟨true, t, c⟩).1.lastStatus = .speech_detected := by
  rw [viStep]
  by_cases hst : s.lastStatus ≠ VadStatus.speech_detected
  · simp [if_pos hst]
  · push_neg at hst
    simp [hst]

theorem viStep_hang (h t : ℚ) (s : VIState) (i : ViInput)
    (hsp : i.isSpeech = false) (hls : s.lastSpeech = some t)
    (hin : i.now - t < h / 1000) :
    (viStep h s i).1.lastSpeech = some t
      ∧ (viStep h s i).1.lastStatus ≠ .silence
      ∧ countAudio (viStep h s i).2 = 1 := by
  rw [viStep]
  simp only [hsp, Bool.false_eq_true, if_false, hls, if_pos hin]
  by_cases hst : s.lastStatus ≠ VadStatus.speech_hangover
  · simp [if_pos hst, countAudio, make_audio_packet, make_status_packet,
      isAudioPacket]
  · push_neg at hst
    simp [hst, countAudio, make_audio_packet, isAudioPacket]

theorem viStep_expire (h t : ℚ) (s : VIState) (i : ViInput)
    (hsp : i.isSpeech = false) (hls : s.lastSpeech = some t)
    (hst : s.lastStatus ≠ .silence) (hout : ¬(i.now - t < h / 1000)) :
    (viStep h s i).2 = [make_status_packet .silence (viNowMs i.now)]
      ∧ (viStep h s i).1 = ⟨none, .silence, s.sequence⟩ := by
  rw [viStep]
  simp [hsp, hls, if_neg hout, if_pos hst]

theorem viRun_dead (h : ℚ) (inps : List ViInput)
    (hsil : ∀ i ∈ inps, i.isSpeech = false) :
    ∀ q : Nat, (viRun h ⟨none, .silence, q⟩ inps).2 = inps.map (fun _ => [])
      ∧ (viRun h ⟨none, .silence, q⟩ inps).1 = ⟨none, .silence, q⟩ := by
  induction inps with
  | nil => simp [viRun]
  | cons i rest ih =>
    intro q
    have hi : i.isSpeech = false := hsil i (by simp)
    have hstep : viStep h ⟨none, .silence, q⟩ i = (⟨none, .silence, q⟩, []) := by
      rw [viStep]
      simp [hi]
    have hrest := ih (fun j hj => hsil j (by simp [hj])) q
    simp [viRun, hstep, hrest.1, hrest.2]

theorem viRun_hangover_counts (h t : ℚ) (sil : List ViInput)
    (hsil : ∀ i ∈ sil, i.isSpeech = false)
    (hmono : (sil.map ViInput.now).Sorted (· ≤ ·)) :
    ∀ s : VIState, s.lastSpeech = some t → s.lastStatus ≠ .silence →
      (viRun h s sil).2.map countAudio
        = sil.map fun i => if i.now - t < h / 1000 then 1 else 0 := by
  induction sil with
  | nil => simp [viRun]
  | cons i rest ih =>
    intro s hls hst
    have hi : i.isSpeech = false := hsil i (by simp)
    have hrestS : ∀ j ∈ rest, j.isSpeech = false := fun j hj => hsil j (by simp [hj])
    rw [List.map_cons, List.sorted_cons] at hmono
    by_cases hin : i.now - t < h / 1000
    · have hstep := viStep_hang h t s i hi hls hin
      simp only [viRun, List.map_cons, hstep.2.2, if_pos hin]
      exact congrArg _ (ih hrestS hmono.2 _ hstep.1 hstep.2.1)
    · have hstep := viStep_expire h t s i hi hls hst hin
      have hdead := viRun_dead h rest hrestS s.sequence
      simp only [viRun, List.map_cons, hstep.1, hstep.2, hdead.1, if_neg hin,
        List.map_map]
      have h0 : countAudio [make_status_packet VadStatus.silence (viNowMs i.now)]
          = 0 := by
        simp [countAudio, make_status_packet, isAudioPacket]
      rw [h0]
      congr 1
      have hall : ∀ j ∈ rest, ¬(j.now - t < h / 1000) := by
        intro j hj
        have h1 : i.now ≤ j.now := hmono.1 j.now (List.mem_map_of_mem _ hj)
        intro hlt
        exact hin (by linarith)
      exact List.map_congr_left fun j hj => by
        simp [countAudio, if_neg (hall j hj)]

theorem viRun_window_state (h t : ℚ) (pre : List ViInput)
    (hsil : ∀ i ∈ pre, i.isSpeech = false)
    (hwin : ∀ i ∈ pre, i.now - t < h / 1000) :
    ∀ s : VIState, s.lastSpeech = some t → s.lastStatus ≠ .silence →
      (viRun h s pre).1.lastSpeech = some t
        ∧ (viRun h s pre).1.lastStatus ≠ .silence := by
  induction pre with
  | nil =>
    intro s hls hst
    simpa [viRun] using ⟨hls, hst⟩
  | cons i rest ih =>
    intro s hls hst
    have hi : i.isSpeech = false := hsil i (by simp)
    have hstep := viStep_hang h t s i hi hls (hwin i (by simp))
    simp only [viRun]
    exact ih (fun j hj => hsil j (by simp [hj]))
      (fun j hj => hwin j (by simp [hj])) _ hstep.1 hstep.2.1

/-- C2: after a chunk classified as speech at time `t`, followed only by
silence chunks with nondecreasing arrival times, the gating loop emits one
audio packet for each silence chunk with `now - t < HANGOVER` and none at or
after `t + HANGOVER`; at the first silence chunk at or beyond the bound it
emits exactly the `SILENCE` status transition and clears
`last_speech_time`.  `HANGOVER` is `SILENCE_DURATION_MS / 1000` seconds
and must be positive, as the service validates at startup. -/
theorem vi_hangover_timing (hangoverMs : ℚ) (hpos : 0 < hangoverMs)
    (s0 : VIState) (c0 : List Nat) (t : ℚ) (sil : List ViInput)
    (hsil : ∀ i ∈ sil, i.isSpeech = false)
    (hmono : (sil.map ViInput.now).Sorted (· ≤ ·)) :
    ViHangoverSpec hangoverMs s0 c0 t sil := by
  obtain ⟨hls, hstat⟩ := viStep_speech hangoverMs s0 t c0
  have hst : (viStep hangoverMs s0 ⟨true, t, c0⟩).1.lastStatus ≠ .silence := by
    rw [hstat]
    simp
  constructor
  · exact viRun_hangover_counts hangoverMs t sil hsil hmono _ hls hst
  · intro pre u post hsplit hprew hub
    subst hsplit
    have hpreS : ∀ i ∈ pre, i.isSpeech = false := fun i hi =>
      hsil i (by simp [hi])
    have huS : u.isSpeech = false := hsil u (by simp)
    have hs2 := viRun_window_state hangoverMs t pre hpreS hprew _ hls hst
    have hexp := viStep_expire hangoverMs t _ u huS hs2.1 hs2.2
      (by rw [not_lt]; exact hub)
    exact ⟨hexp.1, by rw [hexp.2]⟩

/-- Witness for C2: `HANGOVER = 500 ms`, speech at `t = 0`, silence at
`0.25 s` (one audio packet) and at `1 s` (no audio, `SILENCE` emitted,
last-speech cleared). -/
theorem vi_hangover_timing_witness :
    (0 : ℚ) < 500
      ∧ ViHangoverSpec 500 viInit [] 0 [⟨false, 1 / 4, []⟩, ⟨false, 1, []⟩] := by
  refine ⟨by norm_num, vi_hangover_timing 500 (by norm_num) viInit [] 0 _ ?_ ?_⟩
  · intro i hi
    simp only [List.mem_cons, List.not_mem_nil, or_false] at hi
    rcases hi with rfl | rfl <;> rfl
  · simp [List.sorted_cons]
    norm_num

/-! # Speech-Rec worker claims -/

/-- The worker-subsystem invariant that actually holds: every alive worker
other than the tracked one was cancelled (and abandoned); hence at most one
non-cancelled worker is ever alive.  The bound components keep spawned ids
fresh. -/
theorem srStep_inv (s : WorkerSys) (e : SREvent)
    (h1 : ∀ w ∈ s.alive, w ∉ s.cancelled → s.tracked = some w)
    (h2 : ∀ w ∈ s.alive, w < s.nextId)
    (h3 : ∀ w ∈ s.cancelled, w < s.nextId)
    (h4 : ∀ w, s.tracked = some w → w < s.nextId) :
    (∀ w ∈ (srStep s e).alive, w ∉ (srStep s e).cancelled →
        (srStep s e).tracked = some w)
      ∧ (∀ w ∈ (srStep s e).alive, w < (srStep s e).nextId)
      ∧ (∀ w ∈ (srStep s e).cancelled, w < (srStep s e).nextId)
      ∧ (∀ w, (srStep s e).tracked = some w → w < (srStep s e).nextId) := by
  have hspawn :
      (∀ w ∈ s.alive, w ∉ s.cancelled → False) →
      (∀ w ∈ (spawnWorker s).alive, w ∉ (spawnWorker s).cancelled →
          (spawnWorker s).tracked = some w)
        ∧ (∀ w ∈ (spawnWorker s).alive, w < (spawnWorker s).nextId)
        ∧ (∀ w ∈ (spawnWorker s).cancelled, w < (spawnWorker s).nextId)
        ∧ (∀ w, (spawnWorker s).tracked = some w → w < (spawnWorker s).nextId) := by
    intro hdead
    simp only [spawnWorker, List.mem_append, List.mem_singleton,
      Option.some.injEq]
    refine ⟨?_, ?_, ?_, ?_⟩
    · intro w hw hnc
      rcases hw with hw | rfl
      · exact (hdead w hw hnc).elim
      · rfl
    · intro w hw
      rcases hw with hw | rfl
      · exact Nat.lt_succ_of_lt (h2 w hw)
      · exact Nat.lt_succ_self _
    · intro w hw
      exact Nat.lt_succ_of_lt (h3 w hw)
    · intro w hw
      omega
  cases e with
  | maybeStart =>
    rw [srStep]
    cases htr : s.tracked with
    | none =>
      dsimp only
      refine hspawn ?_
      intro w hw hnc
      exact absurd (h1 w hw hnc) (by rw [htr]; simp)
    | some v =>
      dsimp only
      by_cases hv : v ∈ s.alive
      · rw [if_pos hv]
        exact ⟨h1, h2, h3, h4⟩
      · rw [if_neg hv]
        refine hspawn ?_
        intro w hw hnc
        have := h1 w hw hnc
        rw [htr, Option.some.injEq] at this
        exact hv (this ▸ hw)
  | reset j =>
    rw [srStep]
    cases htr : s.tracked with
    | none =>
      dsimp only
      refine ⟨?_, h2, h3, ?_⟩
      · intro w hw hnc
        exact absurd (h1 w hw hnc) (by rw [htr]; simp)
      · intro w hw
        simp at hw
    | some v =>
      dsimp only
      by_cases hv : v ∈ s.alive
      · rw [if_pos hv]
        cases j with
        | true =>
          rw [if_pos rfl]
          refine ⟨?_, h2, ?_, ?_⟩
          · intro w hw hnc
            simp only [List.mem_append, List.mem_singleton, not_or] at hnc
            have := h1 w hw hnc.1
            rw [htr, Option.some.injEq] at this
            exact absurd this.symm hnc.2
          · intro w hw
            simp only [List.mem_append, List.mem_singleton] at hw
            rcases hw with hw | rfl
            · exact h3 w hw
            · exact h4 _ htr
          · intro w hw
            simp at hw
        | false =>
          rw [if_neg (by simp)]
          refine ⟨?_, ?_, ?_, ?_⟩
          · intro w hw hnc
            simp only [List.mem_append, List.mem_singleton, not_or] at hnc
            have := h1 w (List.mem_of_mem_erase hw) hnc.1
            rw [htr, Option.some.injEq] at this
            exact absurd this.symm hnc.2
          · intro w hw
            exact h2 w (List.mem_of_mem_erase hw)
          · intro w hw
            simp only [List.mem_append, List.mem_singleton] at hw
            rcases hw with hw | rfl
            · exact h3 w hw
            · exact h4 _ htr
          · intro w hw
            simp at hw
      · rw [if_neg hv]
        refine ⟨?_, h2, h3, ?_⟩
        · intro w hw hnc
          have := h1 w hw hnc
          rw [htr, Option.some.injEq] at this
          exact absurd (this ▸ hw) hv
        · intro w hw
          simp at hw
  | workerDone id =>
    rw [srStep]
    refine ⟨?_, ?_, h3, h4⟩
    · intro w hw hnc
      exact h1 w (List.mem_of_mem_erase hw) hnc
    · intro w hw
      exact h2 w (List.mem_of_mem_erase hw)

theorem srRun_inv (evs : List SREvent) :
    (∀ w ∈ (srRun srInit evs).alive, w ∉ (srRun srInit evs).cancelled →
        (srRun srInit evs).tracked = some w)
      ∧ (∀ w ∈ (srRun srInit evs).alive, w < (srRun srInit evs).nextId)
      ∧ (∀ w ∈ (srRun srInit evs).cancelled, w < (srRun srInit evs).nextId)
      ∧ (∀ w, (srRun srInit evs).tracked = some w →
          w < (srRun srInit evs).nextId) := by
  suffices hgen : ∀ s : WorkerSys,
      ((∀ w ∈ s.alive, w ∉ s.cancelled → s.tracked = some w)
        ∧ (∀ w ∈ s.alive, w < s.nextId)
        ∧ (∀ w ∈ s.cancelled, w < s.nextId)
        ∧ (∀ w, s.tracked = some w → w < s.nextId)) →
      (∀ w ∈ (srRun s evs).alive, w ∉ (srRun s evs).cancelled →
          (srRun s evs).tracked = some w)
        ∧ (∀ w ∈ (srRun s evs).alive, w < (srRun s evs).nextId)
        ∧ (∀ w ∈ (srRun s evs).cancelled, w < (srRun s evs).nextId)
        ∧ (∀ w, (srRun s evs).tracked = some w → w < (srRun s evs).nextId) by
    refine hgen srInit ?_
    refine ⟨?_, ?_, ?_, ?_⟩ <;> intro w hw <;> simp [srInit] at hw
  induction evs with
  | nil => exact fun s hs => hs
  | cons e rest ih =>
    intro s hs
    exact ih (srStep s e) (srStep_inv s e hs.1 hs.2.1 hs.2.2.1 hs.2.2.2)

/-- C3 counterexample: spawn a worker, cancel it with the 0.5 s join timing
out (the worker is abandoned but still alive), then let
`_maybe_start_transcription` run again.  The guard passes
(`transcription_thread` was set to `None`), a second worker is spawned, and
two worker threads are alive simultaneously. -/
theorem speech_rec_two_workers_counterexample :
    (srRun srInit [.maybeStart, .reset true]).tracked = none
      ∧ 0 ∈ (srRun srInit [.maybeStart, .reset true]).alive
      ∧ srRun srInit [.maybeStart, .reset true, .maybeStart]
          = ⟨some 1, [0, 1], [0], 2⟩ := by
  refine ⟨by decide, by decide, by decide⟩

/-- C3 as it holds on the code: whenever `_maybe_start_transcription` spawns
a worker, the tracked worker is dead — but a worker cancelled by
`_cancel_transcription` whose join timed out may still be alive.  What is
invariant is that every alive worker other than the tracked one has been
cancelled (its cancel flag was set before it was abandoned); in particular
at most one non-cancelled worker is alive at any reachable state. -/
theorem speech_rec_at_most_one_uncancelled (evs : List SREvent) (w1 w2 : Nat)
    (h1a : w1 ∈ (srRun srInit evs).alive)
    (h1c : w1 ∉ (srRun srInit evs).cancelled)
    (h2a : w2 ∈ (srRun srInit evs).alive)
    (h2c : w2 ∉ (srRun srInit evs).cancelled) :
    w1 = w2 ∧ (srRun srInit evs).tracked = some w1 := by
  have hinv := (srRun_inv evs).1
  have e1 := hinv w1 h1a h1c
  have e2 := hinv w2 h2a h2c
  rw [e1] at e2
  exact ⟨Option.some.inj e2, e1⟩

/-- Witness for C3's theorem: after one spawn, worker 0 is alive and
uncancelled, and it is the unique such worker. -/
theorem speech_rec_at_most_one_uncancelled_witness :
    0 ∈ (srRun srInit [SREvent.maybeStart]).alive
      ∧ 0 ∉ (srRun srInit [SREvent.maybeStart]).cancelled
      ∧ (srRun srInit [SREvent.maybeStart]).tracked = some 0 :=
  ⟨by decide, by decide,
    (speech_rec_at_most_one_uncancelled [SREvent.maybeStart] 0 0
      (by decide) (by decide) (by decide) (by decide)).2⟩

/-! # Session timeout claims -/

/-- C4 counterexample: with the default configuration
(`ENABLE_SESSION_LOGGING` unset, hence `false`), a timed-out session is
cleared but **no** record is appended to the session log, although every
other condition of the claim holds (non-empty history of two turns,
`now - last_tts_end_time = 100 > 60 = SESSION_TIMEOUT_SECONDS`, final
non-empty text "there").  The in-memory history still becomes exactly the
new user turn. -/
theorem session_timeout_counterexample :
    (handle_final_text_enqueue false 60 100
        ⟨[⟨.user, "hello"⟩, ⟨.assistant, "hi"⟩], 0, []⟩ "there").sessionLog = []
      ∧ (handle_final_text_enqueue false 60 100
          ⟨[⟨.user, "hello"⟩, ⟨.assistant, "hi"⟩], 0, []⟩ "there").history
        = [⟨.user, "there"⟩] := by
  have hc : ((⟨[⟨.user, "hello"⟩, ⟨.assistant, "hi"⟩], 0, []⟩ :
      SessionManager).history ≠ []
        ∧ (60 : ℚ) < 100 - (⟨[⟨.user, "hello"⟩, ⟨.assistant, "hi"⟩], 0, []⟩ :
          SessionManager).last_tts_end_time) := by
    refine ⟨by simp, by norm_num⟩
  simp only [handle_final_text_enqueue, check_timeout, if_pos hc, log_session,
    add_user_message]
  simp

/-- C4 as it holds on the code: when session logging is enabled
(`ENABLE_SESSION_LOGGING=true`), a final text arriving with a non-empty
history and `now - last_tts_end_time > SESSION_TIMEOUT_SECONDS` appends
exactly one record containing the prior history to the session log, and
immediately after the new user turn is enqueued the in-memory history is
exactly that one turn.  With logging disabled the history is still replaced
but nothing is written to the log. -/
theorem session_timeout_amended (timeout now : ℚ) (s : SessionManager)
    (text : String) (htext : text ≠ "") (hne : s.history ≠ [])
    (htime : timeout < now - s.last_tts_end_time) :
    (handle_final_text_enqueue true timeout now s text).sessionLog
        = s.sessionLog ++ [s.history]
      ∧ (handle_final_text_enqueue true timeout now s text).history
        = [⟨.user, text⟩] := by
  simp [handle_final_text_enqueue, check_timeout, log_session,
    add_user_message, hne, htime]

/-- Witness for C4's theorem: scenario B of the spec with logging on. -/
theorem session_timeout_amended_witness :
    (handle_final_text_enqueue true 5 10
        ⟨[⟨.user, "hello"⟩, ⟨.assistant, "hi"⟩], 0, []⟩ "there").sessionLog
      = [] ++ [[⟨.user, "hello"⟩, ⟨.assistant, "hi"⟩]]
    ∧ (handle_final_text_enqueue true 5 10
        ⟨[⟨.user, "hello"⟩, ⟨.assistant, "hi"⟩], 0, []⟩ "there").history
      = [⟨.user, "there"⟩] :=
  session_timeout_amended 5 10 ⟨[⟨.user, "hello"⟩, ⟨.assistant, "hi"⟩], 0, []⟩
    "there" (by decide) (by simp) (by norm_num)

/-! # Orchestrator FSM entry (implicit claim) -/

/-- C10: `_handle_sr_text` has no guard on the current FSM state: for every
current state — IDLE and SPEAKING included — a parsed line with non-empty
text and `is_final = true` runs the session-timeout check, sets the state to
PROCESSING and hands the text to `_process_text`; the result does not depend
on the state argument at all. -/
theorem sr_text_no_state_guard (st : State) (p : SrTextPayload)
    (ht : p.text ≠ "") (hf : p.is_final = true) :
    handle_sr_text st p = ⟨true, .PROCESSING, some p.text⟩ := by
  rw [handle_sr_text, if_pos ht, hf, if_pos rfl]

/-- Witness for C10 in the SPEAKING state. -/
theorem sr_text_no_state_guard_witness :
    handle_sr_text .SPEAKING ⟨"hi", true⟩
      = ⟨true, .PROCESSING, some "hi"⟩ :=
  sr_text_no_state_guard .SPEAKING ⟨"hi", true⟩ (by decide) rfl

/-! # Queue bound claims -/

theorem packetQueue_foldl_length {α : Type} (q : List α) (xs : List α) :
    (xs.foldl packetQueuePut q).length = q.length + xs.length := by
  induction xs generalizing q with
  | nil => simp
  | cons x rest ih =>
    rw [List.foldl_cons, ih]
    simp only [packetQueuePut, List.length_append, List.length_cons,
      List.length_nil]
    omega

/-- C6 counterexample: the Speech-Rec audio server's per-client
`packet_queue` is `queue.Queue()` — unbounded.  Feeding 101 packets leaves
101 items in the queue, violating the claimed bound of 100. -/
theorem queue_bound_counterexample :
    ((List.range 101).foldl packetQueuePut ([] : List Nat)).length = 101
      ∧ 100 < 101 := by
  constructor
  · rw [packetQueue_foldl_length]
    simp
  · norm_num

/-- C6 as it holds on the code: only the network receiver's `audio_queue`
(`queue.Queue(maxsize=100)`) is bounded at 100 with drop-oldest-then-insert
on overflow; the Speech-Rec audio server's `packet_queue` is unbounded —
every put appends unconditionally. -/
theorem queue_bounds {α : Type} (q : List α) (x : α) :
    packetQueuePut q x = q ++ [x]
      ∧ (q.length ≤ NET_QUEUE_MAXSIZE →
          (audioQueuePut q x).length ≤ NET_QUEUE_MAXSIZE)
      ∧ (q.length < NET_QUEUE_MAXSIZE → audioQueuePut q x = q ++ [x])
      ∧ (q.length = NET_QUEUE_MAXSIZE →
          audioQueuePut q x = q.drop 1 ++ [x]) := by
  refine ⟨rfl, ?_, ?_, ?_⟩
  · intro hle
    rw [audioQueuePut]
    simp only [NET_QUEUE_MAXSIZE] at hle ⊢
    by_cases hlt : q.length < 100
    · rw [if_pos hlt]
      simp only [List.length_append, List.length_singleton]
      omega
    · rw [if_neg hlt]
      simp only [List.length_append, List.length_singleton, List.length_drop]
      omega
  · intro hlt
    rw [audioQueuePut, if_pos hlt]
  · intro heq
    rw [audioQueuePut, if_neg (by omega)]

/-- Witness for C6's theorem at a full queue of 100 items. -/
theorem queue_bounds_witness :
    (List.range 100).length = NET_QUEUE_MAXSIZE
      ∧ audioQueuePut (List.range 100) 7 = (List.range 100).drop 1 ++ [7]
      ∧ (audioQueuePut (List.range 100) 7).length ≤ NET_QUEUE_MAXSIZE :=
  ⟨by simp [NET_QUEUE_MAXSIZE], (queue_bounds (List.range 100) 7).2.2.2
      (by simp [NET_QUEUE_MAXSIZE]),
    (queue_bounds (List.range 100) 7).2.1 (by simp [NET_QUEUE_MAXSIZE])⟩

/-! # Audio width conversion (reformatter stage 4) -/

/-- C9: in the reformatter's final conversion stage, widening an in-range
S16 sample to S32 yields exactly `x <<< 16 = x * 2^16`, and narrowing an
in-range S32 sample to S16 yields exactly the arithmetic right shift by 16
(floor division by `2^16`) saturated to `[-32768, 32767]`. -/
theorem audio_width_conversion :
    (∀ x : ℤ, -(2 ^ 15) ≤ x → x < 2 ^ 15 → s16_to_s32 x = x * 2 ^ 16)
      ∧ (∀ x : ℤ, -(2 ^ 31) ≤ x → x < 2 ^ 31 →
          s32_to_s16 x = max (-32768) (min 32767 (x / 2 ^ 16))) := by
  constructor
  · intro x h1 h2
    rw [s16_to_s32, wrap32]
    omega
  · intro x h1 h2
    have e1 : max (-32768) (x / 2 ^ 16) = x / 2 ^ 16 :=
      max_eq_right (by omega)
    have e2 : min 32767 (x / 2 ^ 16) = x / 2 ^ 16 :=
      min_eq_right (by omega)
    rw [s32_to_s16, e1, e2, e1, wrap16]
    omega

/-- Witness for C9 at `x = -5` (widen) and `x = -70000` (narrow:
`⌊-70000 / 65536⌋ = -2`, inside the saturation range). -/
theorem audio_width_conversion_witness :
    s16_to_s32 (-5) = -327680 ∧ s32_to_s16 (-70000) = -2 := by
  constructor
  · have h := audio_width_conversion.1 (-5) (by norm_num) (by norm_num)
    rw [h]
    norm_num
  · have h := audio_width_conversion.2 (-70000) (by norm_num) (by norm_num)
    rw [h]
    decide

end AlicePi
